import Mathlib

/-!
Verification of the BC-PFS round-based proportional-fair scheduler.

Shallow embedding of the three core contracts:
* `StatusReportingContract` (rate estimation from channel-state reports and
  the per-pair report ledger),
* `SchedulingContract` (per-operator user selection and the remainder-carrying
  throughput EWMA update),
* `SettlementContract` (service notification and billing of selected pairs).

Addresses are modelled as natural numbers, with `0` playing the role of
`address(0)`.  Solidity mappings become total functions with the zero default,
byte strings become lists of naturals, and a reverting call is modelled by an
`Option` result (`none` = revert, so the caller's state is unchanged).
-/

namespace BCPFS

/-- Pointwise update of a two-argument map, used to model Solidity mapping
assignment `f[a][b] = v`. -/
def updFn2 {α : Type} (f : Nat → Nat → α) (a b : Nat) (v : α) : Nat → Nat → α :=
  fun x y => if x = a ∧ y = b then v else f x y

/-- Pointwise update of a one-argument map, `f[a] = v`. -/
def updFn {α : Type} (f : Nat → α) (a : Nat) (v : α) : Nat → α :=
  fun x => if x = a then v else f x

/-! ## StatusReportingContract -/

/-- `StatusReportingContract.validCSI`: CSI data is considered valid when it is
non-empty. -/
def validCSI (csi : List Nat) : Bool := csi.length > 0

/-- `StatusReportingContract.rateEstimation`: interpret the first 8 bytes of the
report as a big-endian integer `snrScaled`, clamp `0` to `1000000`, then compute
`(1000 * snr + 693000 / 2) / 693000`.  The `require(csi.length >= 8)` revert is
modelled by `none`. -/
def rateEstimation (csi : List Nat) : Option Nat :=
  if 8 ≤ csi.length then
    let snrScaled := (csi.take 8).foldl (fun acc b => acc * 256 + b) 0
    let snr := if snrScaled = 0 then 1000000 else snrScaled
    some ((1000 * snr + 693000 / 2) / 693000)
  else
    none

/-- State of `StatusReportingContract`: per (user, operator) rate history and
the derived latest-rate index. -/
structure ReportState where
  operatorUserRates : Nat → Nat → List Nat
  latestOperatorUserRate : Nat → Nat → Nat

/-- Deployment state of `StatusReportingContract`: all mappings empty. -/
def initialReportState : ReportState :=
  { operatorUserRates := fun _ _ => []
    latestOperatorUserRate := fun _ _ => 0 }

/-- `StatusReportingContract.submitReport`: validate the CSI, estimate the rate,
append it to the pair's history and overwrite the latest-rate index.  `none`
models a revert (no state change). -/
def submitReport (s : ReportState) (user op : Nat) (csi : List Nat) :
    Option ReportState :=
  if validCSI csi then
    match rateEstimation csi with
    | some rate =>
        some { operatorUserRates :=
                 updFn2 s.operatorUserRates user op
                   (s.operatorUserRates user op ++ [rate])
               latestOperatorUserRate :=
                 updFn2 s.latestOperatorUserRate user op rate }
    | none => none
  else
    none

/-- `StatusReportingContract.getLatestRate`. -/
def getLatestRate (s : ReportState) (user op : Nat) : Nat :=
  s.latestOperatorUserRate user op

/-- Run a sequence of `submitReport` transactions; a reverting submission
leaves the state unchanged. -/
def runSubmissions (evs : List (Nat × Nat × List Nat)) (s : ReportState) :
    ReportState :=
  evs.foldl (fun st e => (submitReport st e.1 e.2.1 e.2.2).getD st) s

/-- Spec-side reading of the first 8 bytes as a big-endian unsigned integer
(a second formulation, written from the spec's words, to be compared with the
accumulator loop of `rateEstimation`). -/
def snrOfBytes (csi : List Nat) : Nat :=
  csi.getD 0 0 * 256 ^ 7 + csi.getD 1 0 * 256 ^ 6 + csi.getD 2 0 * 256 ^ 5 +
  csi.getD 3 0 * 256 ^ 4 + csi.getD 4 0 * 256 ^ 3 + csi.getD 5 0 * 256 ^ 2 +
  csi.getD 6 0 * 256 + csi.getD 7 0

/-- Rates of the successful submissions among `evs` that target the pair
`(user, op)`, in submission order. -/
def successRates (user op : Nat) (evs : List (Nat × Nat × List Nat)) :
    List Nat :=
  (evs.filter (fun e => e.1 == user && e.2.1 == op)).filterMap
    (fun e => rateEstimation e.2.2)

/-! ## SchedulingContract -/

/-- `SchedulingContract.alpha`, the EWMA smoothing divisor. -/
def alpha : Nat := 10000

/-- `SchedulingContract.PRECISION`, the fixed-point scale of stored throughput
(8 decimal places). -/
def PRECISION : Nat := 100000000

/-- The priority computation of the selection loop: `latestRate * 1000000000 /
throughput` when the stored throughput is positive, else `latestRate *
100000000`. -/
def priority (thr lr : Nat) : Nat :=
  if thr > 0 then lr * 1000000000 / thr else lr * 100000000

/-- One iteration of the inner selection loop: the accumulator is
`(selectedUser, bestLatestRate, maxPriority)` and a candidate replaces it only
on strictly greater priority. -/
def selStep (prio rate : Nat → Nat) (acc : Nat × Nat × Nat) (u : Nat) :
    Nat × Nat × Nat :=
  if prio u > acc.2.2 then (u, rate u, prio u) else acc

/-- The inner selection loop of `updateScheduling`, started from
`(address(0), 0, 0)`. -/
def selectBest (prio rate : Nat → Nat) (users : List Nat) : Nat × Nat × Nat :=
  users.foldl (selStep prio rate) (0, 0, 0)

/-- Storage of `SchedulingContract`. -/
structure SchedState where
  selectedUser : Nat → Nat
  throughput : Nat → Nat
  throughputRemainder : Nat → Nat
  schedulingMatrix : Nat → Nat → Bool
  allocatedRate : Nat → Nat → Nat
  serviceDuration : Nat → Nat → Nat

/-- Body of the per-operator loop of `updateScheduling`: clear the previous
selection, scan all users for the maximal priority, and record the winner (if
any) in the matrix, allocated-rate and service-duration mappings.  `lr` is the
latest-rate view provided by the status reporting contract and `hsh op` models
`uint(keccak256(abi.encodePacked(block.timestamp, op)))`. -/
def processOperator (lr : Nat → Nat → Nat) (hsh : Nat → Nat)
    (users : List Nat) (s : SchedState) (op : Nat) : SchedState :=
  let prev := s.selectedUser op
  let m1 := if prev ≠ 0 then updFn2 s.schedulingMatrix prev op false
            else s.schedulingMatrix
  let a1 := if prev ≠ 0 then updFn2 s.allocatedRate prev op 0
            else s.allocatedRate
  let res := selectBest (fun u => priority (s.throughput u) (lr u op))
               (fun u => lr u op) users
  if res.1 ≠ 0 then
    { s with selectedUser := updFn s.selectedUser op res.1
             schedulingMatrix := updFn2 m1 res.1 op true
             allocatedRate := updFn2 a1 res.1 op res.2.1
             serviceDuration := updFn2 s.serviceDuration res.1 op
               (35 + hsh op % 16) }
  else
    { s with selectedUser := updFn s.selectedUser op 0
             schedulingMatrix := m1
             allocatedRate := a1 }

/-- The user-selection phase of `updateScheduling`: the per-operator loop. -/
def selectionPhase (lr : Nat → Nat → Nat) (hsh : Nat → Nat)
    (users operators : List Nat) (s : SchedState) : SchedState :=
  operators.foldl (processOperator lr hsh users) s

/-- The remainder-carrying throughput recurrence of `updateScheduling`
(lines computing `numerator`, `newThroughput`, `newRemainder`), with
`tot` the round's total allocated rate for the user. -/
def throughputUpdate (tot v r : Nat) : Nat × Nat :=
  let numerator := (alpha - 1) * v + tot * 100000000 + r
  (numerator / alpha, numerator % alpha)

/-- The total allocated rate of user `u` this round: the sum of
`allocatedRate[u][op]` over the operators whose scheduling-matrix entry for `u`
is set. -/
def totalAllocatedOf (s : SchedState) (operators : List Nat) (u : Nat) : Nat :=
  operators.foldl
    (fun acc op => if s.schedulingMatrix u op then acc + s.allocatedRate u op
                   else acc) 0

/-- The throughput-update phase of `updateScheduling`: every user in the list
gets one remainder-carrying EWMA step. -/
def throughputPhase (operators users : List Nat) (s : SchedState) :
    SchedState :=
  users.foldl
    (fun st u =>
      let p := throughputUpdate (totalAllocatedOf st operators u)
                 (st.throughput u) (st.throughputRemainder u)
      { st with throughput := updFn st.throughput u p.1
                throughputRemainder := updFn st.throughputRemainder u p.2 }) s

/-- `SchedulingContract.updateScheduling`: user selection for every operator,
then the throughput update for every user. -/
def updateScheduling (lr : Nat → Nat → Nat) (hsh : Nat → Nat)
    (users operators : List Nat) (s : SchedState) : SchedState :=
  throughputPhase operators users (selectionPhase lr hsh users operators s)

/-- The throughput pair `(value, remainder)` after `K` rounds of the
remainder-carrying recurrence with a fixed per-round total allocated rate `X`,
starting from `(0, 0)`. -/
def thrPair (X : Nat) : Nat → Nat × Nat
  | 0 => (0, 0)
  | k + 1 =>
      let p := thrPair X k
      throughputUpdate X p.1 p.2

/-- The exact rational EWMA with smoothing divisor `alpha`, scaled to `1e8`
fixed point and floored once at the end: after `K` rounds of constant input
`X` it is `X * PRECISION * (alpha^K - (alpha-1)^K) / alpha^K` (a second
formulation, written from the spec's words, to be compared with `thrPair`). -/
def exactEWMA (X K : Nat) : Nat :=
  X * PRECISION * (alpha ^ K - (alpha - 1) ^ K) / alpha ^ K

/-- The per-operator selection invariant: every user marked in the operator's
scheduling-matrix column is exactly the operator's recorded selected user, and
that record is not `address(0)`. -/
def selInv (s : SchedState) (op : Nat) : Prop :=
  ∀ u, s.schedulingMatrix u op = true →
    u = s.selectedUser op ∧ s.selectedUser op ≠ 0

/-! ## SettlementContract -/

/-- Events emitted by `SettlementContract`. -/
inductive SEvent where
  | notified (user op duration bandwidth : Nat)
  | payment (user op cost : Nat)
deriving DecidableEq

/-- `SettlementContract.getServiceParameters`: duration from the scheduling
contract if nonzero, else the default `50`; bandwidth fixed at `1000`. -/
def getServiceParameters (dur : Nat → Nat → Nat) (user op : Nat) : Nat × Nat :=
  let d := dur user op
  (if d = 0 then 50 else d, 1000)

/-- `SettlementContract.calculateCost`: `rate * duration * bandwidth`, with the
operator's rate defaulting to `87` when unset. -/
def calculateCost (rates : Nat → Nat) (op duration bandwidth : Nat) : Nat :=
  (if rates op = 0 then 87 else rates op) * duration * bandwidth

/-- The loop body of `processScheduledTransactions` for one (user, operator)
pair: if the pair's scheduling-matrix entry is set, emit the `ServiceNotified`
and `PaymentProcessed` events, else nothing. -/
def settleCell (matrix : Nat → Nat → Bool) (dur : Nat → Nat → Nat)
    (rates : Nat → Nat) (u op : Nat) : List SEvent :=
  if matrix u op then
    let p := getServiceParameters dur u op
    [SEvent.notified u op p.1 p.2,
     SEvent.payment u op (calculateCost rates op p.1 p.2)]
  else []

/-- `SettlementContract.processScheduledTransactions`: for every (user,
operator) pair in registration order whose scheduling-matrix entry is set, emit
one `ServiceNotified` and one `PaymentProcessed` event. -/
def processScheduledTransactions (matrix : Nat → Nat → Bool)
    (dur : Nat → Nat → Nat) (rates : Nat → Nat) (users operators : List Nat) :
    List SEvent :=
  users.flatMap (fun u =>
    operators.flatMap (fun op => settleCell matrix dur rates u op))

/-! ## Concrete fixtures used by counterexamples and witnesses -/

/-- A scheduling state with everything zeroed: fresh deployment. -/
def zeroSchedState : SchedState :=
  { selectedUser := fun _ => 0
    throughput := fun _ => 0
    throughputRemainder := fun _ => 0
    schedulingMatrix := fun _ _ => false
    allocatedRate := fun _ _ => 0
    serviceDuration := fun _ _ => 0 }

/-- A scheduling state in which user `1` has stored throughput `10000`. -/
def oneUserSchedState : SchedState :=
  { zeroSchedState with throughput := fun u => if u = 1 then 10000 else 0 }

/-! ## Helper lemmas -/

theorem exists_cons_of_le_length (n : Nat) (l : List Nat)
    (h : n + 1 ≤ l.length) : ∃ a t, l = a :: t ∧ n ≤ t.length := by
  cases l with
  | nil => simp at h
  | cons a t => exact ⟨a, t, rfl, by simpa using h⟩

theorem getLast?_getD_cons (l : List Nat) :
    ∀ a b : Nat, ((a :: l).getLast?).getD b = (l.getLast?).getD a := by
  induction l with
  | nil => intro a b; rfl
  | cons c t ih =>
    intro a b
    rw [List.getLast?_cons_cons, ih c b, ← ih c a]

theorem rateEstimation_eq_snrOfBytes (csi : List Nat) (h : 8 ≤ csi.length) :
    rateEstimation csi =
      some ((1000 * (if snrOfBytes csi = 0 then 1000000 else snrOfBytes csi) +
             693000 / 2) / 693000) := by
  obtain ⟨a0, l0, rfl, h0⟩ := exists_cons_of_le_length 7 csi h
  obtain ⟨a1, l1, rfl, h1⟩ := exists_cons_of_le_length 6 l0 h0
  obtain ⟨a2, l2, rfl, h2⟩ := exists_cons_of_le_length 5 l1 h1
  obtain ⟨a3, l3, rfl, h3⟩ := exists_cons_of_le_length 4 l2 h2
  obtain ⟨a4, l4, rfl, h4⟩ := exists_cons_of_le_length 3 l3 h3
  obtain ⟨a5, l5, rfl, h5⟩ := exists_cons_of_le_length 2 l4 h4
  obtain ⟨a6, l6, rfl, h6⟩ := exists_cons_of_le_length 1 l5 h5
  obtain ⟨a7, l7, rfl, h7⟩ := exists_cons_of_le_length 0 l6 h6
  have hsnr :
      ((a0 :: a1 :: a2 :: a3 :: a4 :: a5 :: a6 :: a7 :: l7).take 8).foldl
          (fun acc b => acc * 256 + b) 0 =
        snrOfBytes (a0 :: a1 :: a2 :: a3 :: a4 :: a5 :: a6 :: a7 :: l7) := by
    simp [snrOfBytes, List.getD]
    ring
  rw [rateEstimation, if_pos h]
  simp only [hsnr]

theorem submitReport_latest_success (s : ReportState) (user op : Nat)
    (csi : List Nat) (rate : Nat) (hre : rateEstimation csi = some rate) :
    submitReport s user op csi =
      some { operatorUserRates :=
               updFn2 s.operatorUserRates user op
                 (s.operatorUserRates user op ++ [rate])
             latestOperatorUserRate :=
               updFn2 s.latestOperatorUserRate user op rate } := by
  have hlen : 8 ≤ csi.length := by
    by_contra hc
    rw [rateEstimation, if_neg hc] at hre
    exact Option.noConfusion hre
  have hv : validCSI csi = true := by
    simp only [validCSI, gt_iff_lt, decide_eq_true_eq]
    omega
  rw [submitReport, if_pos hv, hre]

theorem submitReport_fail_of_rate_none (s : ReportState) (user op : Nat)
    (csi : List Nat) (hre : rateEstimation csi = none) :
    submitReport s user op csi = none := by
  rw [submitReport]
  split
  · rw [hre]
  · rfl

theorem runSubmissions_cons (e : Nat × Nat × List Nat)
    (t : List (Nat × Nat × List Nat)) (s : ReportState) :
    runSubmissions (e :: t) s =
      runSubmissions t ((submitReport s e.1 e.2.1 e.2.2).getD s) := rfl

theorem runSubmissions_latest (user op : Nat) :
    ∀ (evs : List (Nat × Nat × List Nat)) (s : ReportState),
      getLatestRate (runSubmissions evs s) user op =
        ((successRates user op evs).getLast?).getD (getLatestRate s user op) := by
  intro evs
  induction evs with
  | nil => intro s; rfl
  | cons e t ih =>
    intro s
    obtain ⟨u0, o0, c0⟩ := e
    rw [runSubmissions_cons, ih]
    by_cases hp : u0 = user ∧ o0 = op
    · obtain ⟨rfl, rfl⟩ := hp
      cases hre : rateEstimation c0 with
      | none =>
        rw [submitReport_fail_of_rate_none s u0 o0 c0 hre]
        have hsr : successRates u0 o0 ((u0, o0, c0) :: t) =
            successRates u0 o0 t := by
          simp [successRates, List.filter_cons, List.filterMap_cons, hre]
        rw [hsr]
        rfl
      | some r =>
        rw [submitReport_latest_success s u0 o0 c0 r hre]
        have hsr : successRates u0 o0 ((u0, o0, c0) :: t) =
            r :: successRates u0 o0 t := by
          simp [successRates, List.filter_cons, List.filterMap_cons, hre]
        rw [hsr, getLast?_getD_cons]
        have hlat :
            getLatestRate
              { operatorUserRates :=
                  updFn2 s.operatorUserRates u0 o0
                    (s.operatorUserRates u0 o0 ++ [r])
                latestOperatorUserRate :=
                  updFn2 s.latestOperatorUserRate u0 o0 r } u0 o0 = r := by
          simp [getLatestRate, updFn2]
        rw [Option.getD_some, hlat]
    · have hsr : successRates user op ((u0, o0, c0) :: t) =
          successRates user op t := by
        have hfalse : (u0 == user && o0 == op) = false := by
          rcases eq_or_ne u0 user with h1 | h1
          · have h2 : o0 ≠ op := fun h2 => hp ⟨h1, h2⟩
            simp [h2]
          · simp [h1]
        simp [successRates, List.filter_cons, hfalse]
      rw [hsr]
      have hstep : getLatestRate ((submitReport s u0 o0 c0).getD s) user op =
          getLatestRate s user op := by
        cases hre : rateEstimation c0 with
        | none =>
          rw [submitReport_fail_of_rate_none s u0 o0 c0 hre]
          rfl
        | some r =>
          rw [submitReport_latest_success s u0 o0 c0 r hre]
          have hne : ¬(user = u0 ∧ op = o0) := by
            intro ⟨h1, h2⟩
            exact hp ⟨h1.symm, h2.symm⟩
          simp [getLatestRate, updFn2, hne]
      rw [hstep]

theorem thrPair_succ (X k : Nat) :
    thrPair X (k + 1) =
      throughputUpdate X (thrPair X k).1 (thrPair X k).2 := rfl

theorem thrPair_one (X : Nat) : thrPair X 1 = (X * 10000, 0) := by
  rw [thrPair_succ]
  show throughputUpdate X 0 0 = _
  rw [throughputUpdate]
  rw [Prod.mk.injEq]
  constructor
  · show ((alpha - 1) * 0 + X * 100000000 + 0) / alpha = X * 10000
    rw [show (alpha - 1) * 0 + X * 100000000 + 0 = X * 10000 * 10000 from by
      rw [alpha]; ring]
    exact Nat.mul_div_cancel _ (by norm_num [alpha])
  · show ((alpha - 1) * 0 + X * 100000000 + 0) % alpha = 0
    rw [show (alpha - 1) * 0 + X * 100000000 + 0 = X * 10000 * 10000 from by
      rw [alpha]; ring]
    rw [alpha]
    exact Nat.mul_mod_left _ _

theorem thrPair_two (X : Nat) : thrPair X 2 = (X * 19999, 0) := by
  rw [thrPair_succ, thrPair_one]
  rw [throughputUpdate]
  rw [Prod.mk.injEq]
  constructor
  · show ((alpha - 1) * (X * 10000) + X * 100000000 + 0) / alpha = X * 19999
    rw [show (alpha - 1) * (X * 10000) + X * 100000000 + 0 =
        X * 19999 * 10000 from by rw [alpha]; ring]
    exact Nat.mul_div_cancel _ (by norm_num [alpha])
  · show ((alpha - 1) * (X * 10000) + X * 100000000 + 0) % alpha = 0
    rw [show (alpha - 1) * (X * 10000) + X * 100000000 + 0 =
        X * 19999 * 10000 from by rw [alpha]; ring]
    rw [alpha]
    exact Nat.mul_mod_left _ _

theorem thrPair_three (X : Nat) :
    thrPair X 3 = (X * 29997 + X / 10000, X % 10000) := by
  rw [thrPair_succ, thrPair_two]
  rw [throughputUpdate]
  rw [Prod.mk.injEq]
  constructor
  · show ((alpha - 1) * (X * 19999) + X * 100000000 + 0) / alpha =
      X * 29997 + X / 10000
    rw [show (alpha - 1) * (X * 19999) + X * 100000000 + 0 =
        X + X * 29997 * 10000 from by rw [alpha]; ring]
    rw [alpha]
    rw [Nat.add_mul_div_right X (X * 29997) (by norm_num)]
    omega
  · show ((alpha - 1) * (X * 19999) + X * 100000000 + 0) % alpha = X % 10000
    rw [show (alpha - 1) * (X * 19999) + X * 100000000 + 0 =
        X + X * 29997 * 10000 from by rw [alpha]; ring]
    rw [alpha]
    exact Nat.add_mul_mod_self_right X (X * 29997) 10000

theorem selStep_eq_of_le {prio rate : Nat → Nat} {acc : Nat × Nat × Nat}
    {u : Nat} (h : prio u ≤ acc.2.2) : selStep prio rate acc u = acc := by
  rw [selStep, if_neg (by omega)]

theorem selStep_eq_of_gt {prio rate : Nat → Nat} {acc : Nat × Nat × Nat}
    {u : Nat} (h : acc.2.2 < prio u) :
    selStep prio rate acc u = (u, rate u, prio u) := by
  rw [selStep, if_pos (by omega)]

theorem selMax_init_le (prio : Nat → Nat) :
    ∀ (us : List Nat) (mp : Nat),
      mp ≤ us.foldl (fun m u => Nat.max m (prio u)) mp := by
  intro us
  induction us with
  | nil => intro mp; exact Nat.le_refl mp
  | cons u t ih =>
    intro mp
    rw [List.foldl_cons]
    exact le_trans (Nat.le_max_left mp (prio u)) (ih (Nat.max mp (prio u)))

theorem selMax_mem_le (prio : Nat → Nat) :
    ∀ (us : List Nat) (mp u : Nat), u ∈ us →
      prio u ≤ us.foldl (fun m v => Nat.max m (prio v)) mp := by
  intro us
  induction us with
  | nil => intro mp u h; cases h
  | cons v t ih =>
    intro mp u h
    rw [List.foldl_cons]
    rcases List.mem_cons.mp h with rfl | ht
    · exact le_trans (Nat.le_max_right mp (prio u)) (selMax_init_le prio t _)
    · exact ih _ u ht

theorem selFold_snd (prio rate : Nat → Nat) :
    ∀ (us : List Nat) (s br mp : Nat),
      (us.foldl (selStep prio rate) (s, br, mp)).2.2 =
        us.foldl (fun m u => Nat.max m (prio u)) mp := by
  intro us
  induction us with
  | nil => intro s br mp; rfl
  | cons u t ih =>
    intro s br mp
    rw [List.foldl_cons, List.foldl_cons]
    by_cases h : mp < prio u
    · rw [selStep_eq_of_gt h, ih]
      congr 1
      exact (Nat.max_eq_right (Nat.le_of_lt h)).symm
    · rw [selStep_eq_of_le (Nat.not_lt.mp h), ih]
      congr 1
      exact (Nat.max_eq_left (Nat.not_lt.mp h)).symm

theorem selFold_stable (prio rate : Nat → Nat) :
    ∀ (us : List Nat) (s br mp : Nat), (∀ u ∈ us, prio u ≤ mp) →
      us.foldl (selStep prio rate) (s, br, mp) = (s, br, mp) := by
  intro us
  induction us with
  | nil => intros; rfl
  | cons u t ih =>
    intro s br mp h
    rw [List.foldl_cons]
    rw [selStep_eq_of_le (h u (List.mem_cons_self u t))]
    exact ih s br mp (fun v hv => h v (List.mem_cons_of_mem u hv))

theorem selFold_found (prio rate : Nat → Nat) :
    ∀ (us : List Nat) (s br mp : Nat) (res : Nat × Nat × Nat),
      us.foldl (selStep prio rate) (s, br, mp) = res →
      (∃ u ∈ us, mp < prio u) →
      res.1 ∈ us ∧ res.2.1 = rate res.1 ∧ res.2.2 = prio res.1 ∧
      us.find? (fun u => prio u == res.2.2) = some res.1 := by
  intro us
  induction us with
  | nil =>
    intro s br mp res hf hex
    exact absurd hex (by simp)
  | cons v t ih =>
    intro s br mp res hf hex
    rw [List.foldl_cons] at hf
    by_cases hv : mp < prio v
    · rw [selStep_eq_of_gt hv] at hf
      by_cases hall : ∀ u ∈ t, prio u ≤ prio v
      · have hres : (v, rate v, prio v) = res := by
          rw [← hf]
          exact (selFold_stable prio rate t v (rate v) (prio v) hall).symm
        obtain rfl := hres.symm
        refine ⟨List.mem_cons_self v t, rfl, rfl, ?_⟩
        exact List.find?_cons_of_pos t (by simp)
      · push_neg at hall
        obtain ⟨w, hw, hwgt⟩ := hall
        obtain ⟨h1, h2, h3, h4⟩ := ih v (rate v) (prio v) res hf ⟨w, hw, hwgt⟩
        refine ⟨List.mem_cons_of_mem v h1, h2, h3, ?_⟩
        rw [List.find?_cons_of_neg]
        · exact h4
        · have hsnd : res.2.2 = t.foldl (fun m u => Nat.max m (prio u)) (prio v) := by
            rw [← hf, selFold_snd]
          have hle : prio w ≤ res.2.2 := hsnd ▸ selMax_mem_le prio t (prio v) w hw
          simp only [beq_iff_eq]
          omega
    · rw [selStep_eq_of_le (Nat.not_lt.mp hv)] at hf
      obtain ⟨w, hw, hwgt⟩ := hex
      have hwt : w ∈ t := by
        rcases List.mem_cons.mp hw with rfl | h
        · exact absurd hwgt hv
        · exact h
      obtain ⟨h1, h2, h3, h4⟩ := ih s br mp res hf ⟨w, hwt, hwgt⟩
      refine ⟨List.mem_cons_of_mem v h1, h2, h3, ?_⟩
      rw [List.find?_cons_of_neg]
      · exact h4
      · have hsnd : res.2.2 = t.foldl (fun m u => Nat.max m (prio u)) mp := by
          rw [← hf, selFold_snd]
        have hle : prio w ≤ res.2.2 := hsnd ▸ selMax_mem_le prio t mp w hwt
        have hvle : prio v ≤ mp := Nat.not_lt.mp hv
        simp only [beq_iff_eq]
        omega

theorem processOperator_selectedUser (lr : Nat → Nat → Nat) (hsh : Nat → Nat)
    (users : List Nat) (s : SchedState) (op : Nat) :
    (processOperator lr hsh users s op).selectedUser op =
      (selectBest (fun u => priority (s.throughput u) (lr u op))
        (fun u => lr u op) users).1 := by
  rw [processOperator]
  split
  · simp [updFn]
  · rename_i h
    simp only [ne_eq, Decidable.not_not] at h
    simp [updFn, h]

theorem processOperator_allocatedRate_sel (lr : Nat → Nat → Nat)
    (hsh : Nat → Nat) (users : List Nat) (s : SchedState) (op : Nat)
    (h : (selectBest (fun u => priority (s.throughput u) (lr u op))
           (fun u => lr u op) users).1 ≠ 0) :
    (processOperator lr hsh users s op).allocatedRate
        ((selectBest (fun u => priority (s.throughput u) (lr u op))
           (fun u => lr u op) users).1) op =
      (selectBest (fun u => priority (s.throughput u) (lr u op))
        (fun u => lr u op) users).2.1 := by
  rw [processOperator]
  rw [if_pos h]
  simp [updFn2]

theorem selectionPhase_cons (lr : Nat → Nat → Nat) (hsh : Nat → Nat)
    (users : List Nat) (op : Nat) (t : List Nat) (s : SchedState) :
    selectionPhase lr hsh users (op :: t) s =
      selectionPhase lr hsh users t (processOperator lr hsh users s op) := rfl

theorem throughputPhase_cons (operators : List Nat) (u : Nat) (t : List Nat)
    (s : SchedState) :
    throughputPhase operators (u :: t) s =
      throughputPhase operators t
        { s with
            throughput := updFn s.throughput u
              (throughputUpdate (totalAllocatedOf s operators u)
                (s.throughput u) (s.throughputRemainder u)).1
            throughputRemainder := updFn s.throughputRemainder u
              (throughputUpdate (totalAllocatedOf s operators u)
                (s.throughput u) (s.throughputRemainder u)).2 } := rfl

theorem processOperator_throughput (lr : Nat → Nat → Nat) (hsh : Nat → Nat)
    (users : List Nat) (s : SchedState) (op : Nat) :
    (processOperator lr hsh users s op).throughput = s.throughput ∧
    (processOperator lr hsh users s op).throughputRemainder =
      s.throughputRemainder := by
  rw [processOperator]
  split
  · exact ⟨rfl, rfl⟩
  · exact ⟨rfl, rfl⟩

theorem selectionPhase_throughput (lr : Nat → Nat → Nat) (hsh : Nat → Nat)
    (users : List Nat) :
    ∀ (operators : List Nat) (s : SchedState),
      (selectionPhase lr hsh users operators s).throughput = s.throughput ∧
      (selectionPhase lr hsh users operators s).throughputRemainder =
        s.throughputRemainder := by
  intro operators
  induction operators with
  | nil => intro s; exact ⟨rfl, rfl⟩
  | cons op t ih =>
    intro s
    rw [selectionPhase_cons]
    obtain ⟨h1, h2⟩ := ih (processOperator lr hsh users s op)
    obtain ⟨h3, h4⟩ := processOperator_throughput lr hsh users s op
    exact ⟨h1.trans h3, h2.trans h4⟩

theorem throughputPhase_fields (operators : List Nat) :
    ∀ (users : List Nat) (s : SchedState),
      (throughputPhase operators users s).selectedUser = s.selectedUser ∧
      (throughputPhase operators users s).schedulingMatrix =
        s.schedulingMatrix ∧
      (throughputPhase operators users s).allocatedRate = s.allocatedRate ∧
      (throughputPhase operators users s).serviceDuration =
        s.serviceDuration := by
  intro users
  induction users with
  | nil => intro s; exact ⟨rfl, rfl, rfl, rfl⟩
  | cons u t ih =>
    intro s
    rw [throughputPhase_cons]
    exact ih _

theorem throughputPhase_untouched (operators : List Nat) (u : Nat) :
    ∀ (users : List Nat) (s : SchedState), u ∉ users →
      (throughputPhase operators users s).throughput u = s.throughput u ∧
      (throughputPhase operators users s).throughputRemainder u =
        s.throughputRemainder u := by
  intro users
  induction users with
  | nil => intro s _; exact ⟨rfl, rfl⟩
  | cons v t ih =>
    intro s hout
    have hne : u ≠ v := fun h => hout (h ▸ List.mem_cons_self v t)
    have hnt : u ∉ t := fun h => hout (List.mem_cons_of_mem v h)
    rw [throughputPhase_cons]
    obtain ⟨h1, h2⟩ := ih _ hnt
    rw [h1, h2]
    constructor
    · show updFn s.throughput v _ u = s.throughput u
      simp [updFn, hne]
    · show updFn s.throughputRemainder v _ u = s.throughputRemainder u
      simp [updFn, hne]

theorem throughputPhase_spec (operators : List Nat) (u : Nat) :
    ∀ (users : List Nat), users.Nodup → u ∈ users → ∀ (s : SchedState),
      (throughputPhase operators users s).throughput u =
        (throughputUpdate (totalAllocatedOf s operators u) (s.throughput u)
          (s.throughputRemainder u)).1 ∧
      (throughputPhase operators users s).throughputRemainder u =
        (throughputUpdate (totalAllocatedOf s operators u) (s.throughput u)
          (s.throughputRemainder u)).2 := by
  intro users
  induction users with
  | nil => intro _ h; cases h
  | cons v t ih =>
    intro hnd hmem s
    rw [List.nodup_cons] at hnd
    rw [throughputPhase_cons]
    rcases List.mem_cons.mp hmem with rfl | hmem
    · obtain ⟨h1, h2⟩ := throughputPhase_untouched operators u t _ hnd.1
      rw [h1, h2]
      constructor <;> simp [updFn]
    · have hne : u ≠ v := by
        intro h
        exact hnd.1 (h ▸ hmem)
      obtain ⟨h1, h2⟩ := ih hnd.2 hmem _
      rw [h1, h2]
      constructor <;> simp [totalAllocatedOf, updFn, hne]

theorem processOperator_empty_users (lr : Nat → Nat → Nat) (hsh : Nat → Nat)
    (s : SchedState) (op : Nat) :
    processOperator lr hsh [] s op =
      { s with
          selectedUser := updFn s.selectedUser op 0
          schedulingMatrix :=
            if s.selectedUser op ≠ 0 then
              updFn2 s.schedulingMatrix (s.selectedUser op) op false
            else s.schedulingMatrix
          allocatedRate :=
            if s.selectedUser op ≠ 0 then
              updFn2 s.allocatedRate (s.selectedUser op) op 0
            else s.allocatedRate } := rfl

theorem selPhase_empty_keep_zero (lr : Nat → Nat → Nat) (hsh : Nat → Nat)
    (op : Nat) :
    ∀ (t : List Nat) (s : SchedState), s.selectedUser op = 0 →
      (selectionPhase lr hsh [] t s).selectedUser op = 0 := by
  intro t
  induction t with
  | nil => intro s h; exact h
  | cons o t2 ih =>
    intro s h
    rw [selectionPhase_cons, processOperator_empty_users]
    apply ih
    simp [updFn, h]

theorem selPhase_empty_selected (lr : Nat → Nat → Nat) (hsh : Nat → Nat) :
    ∀ (operators : List Nat) (s : SchedState) (op : Nat), op ∈ operators →
      (selectionPhase lr hsh [] operators s).selectedUser op = 0 := by
  intro operators
  induction operators with
  | nil => intro s op h; cases h
  | cons o t ih =>
    intro s op h
    rw [selectionPhase_cons]
    rcases List.mem_cons.mp h with rfl | ht
    · apply selPhase_empty_keep_zero
      rw [processOperator_empty_users]
      simp [updFn]
    · exact ih _ op ht

theorem processOperator_selectedUser_at (lr : Nat → Nat → Nat)
    (hsh : Nat → Nat) (users : List Nat) (s : SchedState) (op0 op : Nat) :
    (processOperator lr hsh users s op0).selectedUser op =
      if op = op0 then
        (selectBest (fun u => priority (s.throughput u) (lr u op0))
          (fun u => lr u op0) users).1
      else s.selectedUser op := by
  rw [processOperator]
  split
  · simp [updFn]
  · rename_i h
    simp only [ne_eq, Decidable.not_not] at h
    simp [updFn, h]

theorem processOperator_matrix_at (lr : Nat → Nat → Nat) (hsh : Nat → Nat)
    (users : List Nat) (s : SchedState) (op0 u op : Nat) :
    (processOperator lr hsh users s op0).schedulingMatrix u op =
      if u = (selectBest (fun u => priority (s.throughput u) (lr u op0))
                (fun u => lr u op0) users).1 ∧ op = op0 ∧
          (selectBest (fun u => priority (s.throughput u) (lr u op0))
            (fun u => lr u op0) users).1 ≠ 0 then true
      else if u = s.selectedUser op0 ∧ op = op0 ∧ s.selectedUser op0 ≠ 0 then
        false
      else s.schedulingMatrix u op := by
  rw [processOperator]
  split
  · rename_i hres
    simp only [updFn2]
    split_ifs <;> try simp_all [updFn2]
    all_goals tauto
  · rename_i h
    simp only [ne_eq, Decidable.not_not] at h
    simp only [updFn2]
    split_ifs <;> try simp_all [updFn2]
    all_goals tauto

theorem processOperator_selInv (lr : Nat → Nat → Nat) (hsh : Nat → Nat)
    (users : List Nat) (s : SchedState) (op0 : Nat)
    (h : ∀ op, selInv s op) :
    ∀ op, selInv (processOperator lr hsh users s op0) op := by
  intro op u hu
  rw [processOperator_matrix_at] at hu
  by_cases hA : u = (selectBest (fun u => priority (s.throughput u) (lr u op0))
      (fun u => lr u op0) users).1 ∧ op = op0 ∧
      (selectBest (fun u => priority (s.throughput u) (lr u op0))
        (fun u => lr u op0) users).1 ≠ 0
  · obtain ⟨rfl, rfl, hne⟩ := hA
    constructor
    · rw [processOperator_selectedUser_at, if_pos rfl]
    · rw [processOperator_selectedUser_at, if_pos rfl]
      exact hne
  · rw [if_neg hA] at hu
    by_cases hB : u = s.selectedUser op0 ∧ op = op0 ∧ s.selectedUser op0 ≠ 0
    · rw [if_pos hB] at hu
      exact absurd hu (by simp)
    · rw [if_neg hB] at hu
      obtain ⟨hc1, hc2⟩ := h op u hu
      by_cases hop : op = op0
      · subst hop
        exact absurd ⟨hc1, rfl, hc2⟩ hB
      · constructor
        · rw [processOperator_selectedUser_at, if_neg hop]
          exact hc1
        · rw [processOperator_selectedUser_at, if_neg hop]
          exact hc2

theorem selectionPhase_selInv (lr : Nat → Nat → Nat) (hsh : Nat → Nat)
    (users : List Nat) :
    ∀ (operators : List Nat) (s : SchedState), (∀ op, selInv s op) →
      ∀ op, selInv (selectionPhase lr hsh users operators s) op := by
  intro operators
  induction operators with
  | nil => intro s h; exact h
  | cons o t ih =>
    intro s h
    rw [selectionPhase_cons]
    exact ih _ (processOperator_selInv lr hsh users s o h)

theorem exactEWMA_zero (X : Nat) : exactEWMA X 0 = 0 := by
  rw [exactEWMA]
  norm_num

theorem exactEWMA_one (X : Nat) : exactEWMA X 1 = X * 10000 := by
  rw [exactEWMA, alpha, PRECISION]
  norm_num
  rw [show X * 100000000 = X * 10000 * 10000 from by ring]
  exact Nat.mul_div_cancel _ (by norm_num)

theorem exactEWMA_two (X : Nat) : exactEWMA X 2 = X * 19999 := by
  rw [exactEWMA, alpha, PRECISION]
  norm_num
  rw [show X * 100000000 * 19999 = X * 19999 * 100000000 from by ring]
  exact Nat.mul_div_cancel _ (by norm_num)

theorem exactEWMA_three (X : Nat) :
    exactEWMA X 3 = X * 29997 + X / 10000 := by
  rw [exactEWMA, alpha, PRECISION]
  norm_num
  rw [show X * 100000000 * 299970001 =
      (X + X * 29997 * 10000) * 100000000 from by ring]
  rw [show (1000000000000 : Nat) = 10000 * 100000000 from by norm_num]
  rw [Nat.mul_div_mul_right _ _ (by norm_num : (0:Nat) < 100000000)]
  rw [Nat.add_mul_div_right X (X * 29997) (by norm_num)]
  omega

theorem count_flatMap_eq (l : List Nat) (f : Nat → List SEvent) (b : SEvent) :
    ((l.flatMap f).count b) = (l.map (fun a => (f a).count b)).sum := by
  induction l with
  | nil => rfl
  | cons a t ih =>
    rw [List.flatMap_cons, List.count_append, List.map_cons, List.sum_cons, ih]

theorem sum_map_eq_single (g : Nat → Nat) :
    ∀ (l : List Nat) (a : Nat), l.Nodup → a ∈ l →
      (∀ b ∈ l, b ≠ a → g b = 0) → (l.map g).sum = g a := by
  intro l
  induction l with
  | nil => intro a _ h; cases h
  | cons c t ih =>
    intro a hnd hmem hz
    rw [List.nodup_cons] at hnd
    rw [List.map_cons, List.sum_cons]
    rcases List.mem_cons.mp hmem with rfl | hmem2
    · have ht : (t.map g).sum = 0 := by
        apply List.sum_eq_zero
        intro x hx
        obtain ⟨y, hy, rfl⟩ := List.mem_map.mp hx
        exact hz y (List.mem_cons_of_mem _ hy) (fun hya => hnd.1 (hya ▸ hy))
      rw [ht]
      omega
    · have hca : c ≠ a := fun h => hnd.1 (h ▸ hmem2)
      rw [hz c (List.mem_cons_self c t) hca,
        ih a hnd.2 hmem2 (fun b hb hba => hz b (List.mem_cons_of_mem c hb) hba)]
      omega

theorem flatMap_count_single (g : Nat → List SEvent) (l : List Nat) (a : Nat)
    (e : SEvent) (hnd : l.Nodup) (ha : a ∈ l)
    (hz : ∀ b ∈ l, b ≠ a → (g b).count e = 0) :
    (l.flatMap g).count e = (g a).count e := by
  rw [count_flatMap_eq]
  exact sum_map_eq_single (fun b => (g b).count e) l a hnd ha hz

theorem settleCell_count_notified_zero (matrix : Nat → Nat → Bool)
    (dur : Nat → Nat → Nat) (rates : Nat → Nat) (u2 op2 u op d b : Nat)
    (h : u2 ≠ u ∨ op2 ≠ op) :
    (settleCell matrix dur rates u2 op2).count (SEvent.notified u op d b) =
      0 := by
  rw [settleCell]
  split
  · rw [List.count_eq_zero]
    intro hmem
    simp only [List.mem_cons, List.mem_singleton, List.not_mem_nil,
      or_false] at hmem
    rcases hmem with h1 | h1
    · rw [SEvent.notified.injEq] at h1
      rcases h with h | h
      · exact h h1.1.symm
      · exact h h1.2.1.symm
    · exact SEvent.noConfusion h1
  · rfl

theorem settleCell_count_payment_zero (matrix : Nat → Nat → Bool)
    (dur : Nat → Nat → Nat) (rates : Nat → Nat) (u2 op2 u op c : Nat)
    (h : u2 ≠ u ∨ op2 ≠ op) :
    (settleCell matrix dur rates u2 op2).count (SEvent.payment u op c) = 0 := by
  rw [settleCell]
  split
  · rw [List.count_eq_zero]
    intro hmem
    simp only [List.mem_cons, List.mem_singleton, List.not_mem_nil,
      or_false] at hmem
    rcases hmem with h1 | h1
    · exact SEvent.noConfusion h1
    · rw [SEvent.payment.injEq] at h1
      rcases h with h | h
      · exact h h1.1.symm
      · exact h h1.2.1.symm
  · rfl

theorem settleCell_selected (matrix : Nat → Nat → Bool)
    (dur : Nat → Nat → Nat) (rates : Nat → Nat) (u op : Nat)
    (hm : matrix u op = true) :
    settleCell matrix dur rates u op =
      [SEvent.notified u op (if dur u op = 0 then 50 else dur u op) 1000,
       SEvent.payment u op ((if rates op = 0 then 87 else rates op) *
         (if dur u op = 0 then 50 else dur u op) * 1000)] := by
  rw [settleCell, if_pos hm]
  rfl

theorem settleCell_mem_user_op (matrix : Nat → Nat → Bool)
    (dur : Nat → Nat → Nat) (rates : Nat → Nat) (u2 op2 : Nat) (e : SEvent)
    (hmem : e ∈ settleCell matrix dur rates u2 op2) :
    matrix u2 op2 = true ∧
    ((∃ d b, e = SEvent.notified u2 op2 d b) ∨
     ∃ c, e = SEvent.payment u2 op2 c) := by
  rw [settleCell] at hmem
  split at hmem
  · rename_i hm
    refine ⟨hm, ?_⟩
    simp only [List.mem_cons, List.mem_singleton, List.not_mem_nil,
      or_false] at hmem
    rcases hmem with rfl | rfl
    · exact Or.inl ⟨_, _, rfl⟩
    · exact Or.inr ⟨_, rfl⟩
  · cases hmem

/-! ## Claim theorems -/

/-- C3: for every report of length at least 8, `rateEstimation` interprets the
first 8 bytes as a big-endian unsigned integer, clamps `0` to `1000000`, and
returns exactly `(1000 * snr + 693000 / 2) / 693000` by integer division; it is
a pure function of the bytes, and an all-zero first-8-bytes report yields rate
`1443`. -/
theorem rateEstimation_formula :
    (∀ csi : List Nat, 8 ≤ csi.length →
      rateEstimation csi =
        some ((1000 * (if snrOfBytes csi = 0 then 1000000 else snrOfBytes csi) +
               693000 / 2) / 693000)) ∧
    rateEstimation [0, 0, 0, 0, 0, 0, 0, 0] = some 1443 :=
  ⟨rateEstimation_eq_snrOfBytes, by decide⟩

/-- Witness for C3: the formula instantiated at the concrete 8-byte report
whose big-endian value is 1. -/
theorem rateEstimation_formula_witness :
    rateEstimation [0, 0, 0, 0, 0, 0, 0, 1] =
      some ((1000 * (if snrOfBytes [0, 0, 0, 0, 0, 0, 0, 1] = 0 then 1000000
                     else snrOfBytes [0, 0, 0, 0, 0, 0, 0, 1]) +
             693000 / 2) / 693000) :=
  rateEstimation_formula.1 [0, 0, 0, 0, 0, 0, 0, 1] (by decide)

/-- C7: `getLatestRate` is `0` for a pair with no prior submission, and after
any sequence of submissions it returns the rate of the most recent successful
submission for that pair, unaffected by submissions to other pairs. -/
theorem latestRate_history (user op : Nat) (evs : List (Nat × Nat × List Nat))
    (s : ReportState) :
    getLatestRate initialReportState user op = 0 ∧
    getLatestRate (runSubmissions evs s) user op =
      ((successRates user op evs).getLast?).getD (getLatestRate s user op) :=
  ⟨rfl, runSubmissions_latest user op evs s⟩

/-- C8: a report submission with fewer than 8 bytes reverts (modelled as
`none`), so the run semantics leaves the ledger state — every pair's history
and latest-rate index — exactly as before the call. -/
theorem submitReport_short_reverts (s : ReportState) (user op : Nat)
    (csi : List Nat) (h : csi.length < 8) :
    submitReport s user op csi = none ∧
    runSubmissions [(user, op, csi)] s = s := by
  have hre : rateEstimation csi = none := by
    rw [rateEstimation, if_neg (by omega)]
  have hnone : submitReport s user op csi = none :=
    submitReport_fail_of_rate_none s user op csi hre
  refine ⟨hnone, ?_⟩
  rw [runSubmissions_cons]
  rw [hnone]
  rfl

/-- Witness for C8: a concrete 3-byte report reverts and leaves the fresh
ledger unchanged. -/
theorem submitReport_short_reverts_witness :
    submitReport initialReportState 1 2 [5, 6, 7] = none ∧
    runSubmissions [(1, 2, [5, 6, 7])] initialReportState =
      initialReportState :=
  submitReport_short_reverts initialReportState 1 2 [5, 6, 7] (by decide)

/-- C10: the 8-byte report with big-endian value 1 is valid, is not clamped
(the clamp applies only to the exact value 0), estimates to rate 0, and a
successful submission of it leaves the pair's latest rate at 0; the value 346
also estimates to 0 while 347 gives 1. -/
theorem smallSnr_rate_zero :
    validCSI [0, 0, 0, 0, 0, 0, 0, 1] = true ∧
    8 ≤ ([0, 0, 0, 0, 0, 0, 0, 1] : List Nat).length ∧
    snrOfBytes [0, 0, 0, 0, 0, 0, 0, 1] = 1 ∧
    rateEstimation [0, 0, 0, 0, 0, 0, 0, 1] = some 0 ∧
    snrOfBytes [0, 0, 0, 0, 0, 0, 1, 90] = 346 ∧
    rateEstimation [0, 0, 0, 0, 0, 0, 1, 90] = some 0 ∧
    rateEstimation [0, 0, 0, 0, 0, 0, 1, 91] = some 1 ∧
    Option.map (fun s1 => getLatestRate s1 1 2)
        (submitReport initialReportState 1 2 [0, 0, 0, 0, 0, 0, 0, 1]) =
      some 0 := by
  decide

/-- C2: for every operator, the selection scan picks the user of maximal
priority, replacing the running best only on strictly greater priority, so an
exact tie keeps the earlier-scanned (earlier-registered) user — expressed by
`find?`: the selected user is the first user in scan order whose priority
equals the selected user's priority.  A user is selected iff some candidate
has strictly positive priority, and the winner's recorded allocated rate is
its latest reported rate for the operator. -/
theorem selection_max_priority (lr : Nat → Nat → Nat) (hsh : Nat → Nat)
    (users : List Nat) (s : SchedState) (op sel : Nat) (h0 : 0 ∉ users)
    (hsel : sel = (processOperator lr hsh users s op).selectedUser op) :
    (sel ≠ 0 ↔ ∃ u ∈ users, 0 < priority (s.throughput u) (lr u op)) ∧
    (sel ≠ 0 →
      sel ∈ users ∧
      (processOperator lr hsh users s op).allocatedRate sel op = lr sel op ∧
      (∀ u ∈ users, priority (s.throughput u) (lr u op) ≤
        priority (s.throughput sel) (lr sel op)) ∧
      users.find? (fun u =>
          priority (s.throughput u) (lr u op) ==
          priority (s.throughput sel) (lr sel op)) = some sel) := by
  have hs : sel =
      (selectBest (fun u => priority (s.throughput u) (lr u op))
        (fun u => lr u op) users).1 :=
    hsel.trans (processOperator_selectedUser lr hsh users s op)
  by_cases hex : ∃ u ∈ users, 0 < priority (s.throughput u) (lr u op)
  · obtain ⟨h1, h2, h3, h4⟩ :=
      selFold_found (fun u => priority (s.throughput u) (lr u op))
        (fun u => lr u op) users 0 0 0
        (selectBest (fun u => priority (s.throughput u) (lr u op))
          (fun u => lr u op) users) rfl hex
    have hmem : sel ∈ users := hs ▸ h1
    have hne : sel ≠ 0 := fun hz => h0 (hz ▸ hmem)
    refine ⟨⟨fun _ => hex, fun _ => hne⟩, fun _ => ⟨hmem, ?_, ?_, ?_⟩⟩
    · have := processOperator_allocatedRate_sel lr hsh users s op (hs ▸ hne)
      rw [hs, this, h2]
    · intro u hu
      have hle := selMax_mem_le (fun u => priority (s.throughput u) (lr u op))
        users 0 u hu
      have hsnd : (selectBest (fun u => priority (s.throughput u) (lr u op))
            (fun u => lr u op) users).2.2 =
          List.foldl
            (fun m v => Nat.max m (priority (s.throughput v) (lr v op)))
            0 users :=
        selFold_snd (fun u => priority (s.throughput u) (lr u op))
          (fun u => lr u op) users 0 0 0
      have hbound : priority (s.throughput u) (lr u op) ≤
          (selectBest (fun u => priority (s.throughput u) (lr u op))
            (fun u => lr u op) users).2.2 := by
        rw [hsnd]
        exact hle
      rw [← hs] at h3
      rw [h3] at hbound
      exact hbound
    · rw [← hs] at h3 h4
      rw [h3] at h4
      exact h4
  · have hall : ∀ u ∈ users, priority (s.throughput u) (lr u op) ≤ 0 := by
      intro u hu
      rcases Nat.eq_zero_or_pos (priority (s.throughput u) (lr u op)) with h | h
      · omega
      · exact absurd ⟨u, hu, h⟩ hex
    have hz : sel = 0 := by
      rw [hs, selectBest,
        selFold_stable (fun u => priority (s.throughput u) (lr u op))
          (fun u => lr u op) users 0 0 0 hall]
    exact ⟨⟨fun hne => absurd hz hne, fun hx => absurd hx hex⟩,
      fun hne => absurd hz hne⟩

/-- Witness for C2: one operator `5`, two users `[1, 2]` with zero throughput
history; user `2` reports the larger rate and is selected. -/
theorem selection_max_priority_witness :
    ((2 : Nat) ≠ 0 ↔ ∃ u ∈ [1, 2], 0 < priority (zeroSchedState.throughput u)
        ((fun u _ => if u = 2 then 11 else 10) u 5)) ∧
    ((2 : Nat) ≠ 0 →
      (2 : Nat) ∈ [1, 2] ∧
      (processOperator (fun u _ => if u = 2 then 11 else 10) (fun _ => 0)
          [1, 2] zeroSchedState 5).allocatedRate 2 5 =
        (fun u _ => if u = 2 then 11 else 10) 2 5 ∧
      (∀ u ∈ [1, 2], priority (zeroSchedState.throughput u)
          ((fun u _ => if u = 2 then 11 else 10) u 5) ≤
        priority (zeroSchedState.throughput 2)
          ((fun u _ => if u = 2 then 11 else 10) 2 5)) ∧
      List.find? (fun u =>
          priority (zeroSchedState.throughput u)
              ((fun u _ => if u = 2 then 11 else 10) u 5) ==
            priority (zeroSchedState.throughput 2)
              ((fun u _ => if u = 2 then 11 else 10) 2 5)) [1, 2] =
        some 2) :=
  selection_max_priority (fun u _ => if u = 2 then 11 else 10) (fun _ => 0)
    [1, 2] zeroSchedState 5 2 (by decide) (by decide)

/-- C5: in every round, every known user's throughput state is updated exactly
once — also users with zero allocation — by the remainder-carrying formula
`numerator = (alpha - 1) * value + totalAllocated * PRECISION + remainder`,
`newValue = numerator / alpha`, `newRemainder = numerator % alpha`, where
`totalAllocated` sums the post-selection allocated rates over the operators
that selected the user. -/
theorem throughput_once_per_round (lr : Nat → Nat → Nat) (hsh : Nat → Nat)
    (users operators : List Nat) (s : SchedState) (hnd : users.Nodup)
    (u : Nat) (hu : u ∈ users) :
    (updateScheduling lr hsh users operators s).throughput u =
      ((alpha - 1) * s.throughput u +
        totalAllocatedOf (selectionPhase lr hsh users operators s) operators u *
          PRECISION + s.throughputRemainder u) / alpha ∧
    (updateScheduling lr hsh users operators s).throughputRemainder u =
      ((alpha - 1) * s.throughput u +
        totalAllocatedOf (selectionPhase lr hsh users operators s) operators u *
          PRECISION + s.throughputRemainder u) % alpha := by
  obtain ⟨h1, h2⟩ := throughputPhase_spec operators u users hnd hu
    (selectionPhase lr hsh users operators s)
  obtain ⟨ht, hr⟩ := selectionPhase_throughput lr hsh users operators s
  rw [updateScheduling, h1, h2, ht, hr]
  rw [throughputUpdate, PRECISION]
  exact ⟨rfl, rfl⟩

/-- Witness for C5: the formula instantiated with one operator `5`, the two
distinct users `[1, 2]` and user `1` in a fresh state. -/
theorem throughput_once_per_round_witness :
    (updateScheduling (fun _ _ => 10) (fun _ => 0) [1, 2] [5]
        zeroSchedState).throughput 1 =
      ((alpha - 1) * zeroSchedState.throughput 1 +
        totalAllocatedOf
          (selectionPhase (fun _ _ => 10) (fun _ => 0) [1, 2] [5]
            zeroSchedState) [5] 1 * PRECISION +
        zeroSchedState.throughputRemainder 1) / alpha ∧
    (updateScheduling (fun _ _ => 10) (fun _ => 0) [1, 2] [5]
        zeroSchedState).throughputRemainder 1 =
      ((alpha - 1) * zeroSchedState.throughput 1 +
        totalAllocatedOf
          (selectionPhase (fun _ _ => 10) (fun _ => 0) [1, 2] [5]
            zeroSchedState) [5] 1 * PRECISION +
        zeroSchedState.throughputRemainder 1) % alpha :=
  throughput_once_per_round (fun _ _ => 10) (fun _ => 0) [1, 2] [5]
    zeroSchedState (by decide) 1 (by decide)

/-- C4 counterexample: with an empty operator list and a nonempty user list,
`updateScheduling` is not a no-op — the throughput-update loop still runs and
decays user 1's stored throughput from `10000` to `9999`. -/
theorem emptyOperators_not_noop :
    (updateScheduling (fun _ _ => 0) (fun _ => 0) [1] []
        oneUserSchedState).throughput 1 ≠ oneUserSchedState.throughput 1 := by
  decide

/-- C4 amended: with an empty operator list, `updateScheduling` leaves all
selection state (selected user, scheduling matrix, allocated rate, service
duration) unchanged but still applies the zero-allocation throughput update to
every listed user, so it is not a full no-op; with an empty user list the
throughput state is unchanged and every listed operator's selection becomes
none. -/
theorem emptyLists_behavior :
    (∀ (lr : Nat → Nat → Nat) (hsh : Nat → Nat) (users : List Nat)
        (s : SchedState),
      (updateScheduling lr hsh users [] s).selectedUser = s.selectedUser ∧
      (updateScheduling lr hsh users [] s).schedulingMatrix =
        s.schedulingMatrix ∧
      (updateScheduling lr hsh users [] s).allocatedRate = s.allocatedRate ∧
      (updateScheduling lr hsh users [] s).serviceDuration =
        s.serviceDuration) ∧
    (∀ (lr : Nat → Nat → Nat) (hsh : Nat → Nat) (operators : List Nat)
        (s : SchedState),
      (updateScheduling lr hsh [] operators s).throughput = s.throughput ∧
      (updateScheduling lr hsh [] operators s).throughputRemainder =
        s.throughputRemainder ∧
      ∀ op ∈ operators,
        (updateScheduling lr hsh [] operators s).selectedUser op = 0) := by
  constructor
  · intro lr hsh users s
    exact throughputPhase_fields [] users s
  · intro lr hsh operators s
    refine ⟨(selectionPhase_throughput lr hsh [] operators s).1,
      (selectionPhase_throughput lr hsh [] operators s).2, ?_⟩
    intro op hop
    exact selPhase_empty_selected lr hsh operators s op hop

/-- Witness for C4 amended: instantiated with concrete lists and the concrete
state with nonzero throughput for user 1. -/
theorem emptyLists_behavior_witness :
    (updateScheduling (fun _ _ => 3) (fun _ => 4) [1] []
        oneUserSchedState).selectedUser = oneUserSchedState.selectedUser ∧
    (updateScheduling (fun _ _ => 3) (fun _ => 4) [] [7]
        oneUserSchedState).selectedUser 7 = 0 :=
  ⟨(emptyLists_behavior.1 (fun _ _ => 3) (fun _ => 4) [1] oneUserSchedState).1,
   (emptyLists_behavior.2 (fun _ _ => 3) (fun _ => 4) [7]
      oneUserSchedState).2.2 7 (by simp)⟩

/-- C9: every run of `updateScheduling` preserves the selection invariant: for
each operator, at most one user is marked in the scheduling-matrix column, and
that user is exactly the operator's recorded selected user (the clear phase
removes the previous round's mark before the new one is written). -/
theorem updateScheduling_selInv (lr : Nat → Nat → Nat) (hsh : Nat → Nat)
    (users operators : List Nat) (s : SchedState)
    (h : ∀ op, selInv s op) :
    ∀ op, selInv (updateScheduling lr hsh users operators s) op := by
  intro op u hu
  obtain ⟨hsel, hmat, _, _⟩ := throughputPhase_fields operators users
    (selectionPhase lr hsh users operators s)
  rw [updateScheduling] at hu ⊢
  rw [hmat] at hu
  rw [hsel]
  exact selectionPhase_selInv lr hsh users operators s h op u hu

/-- Witness for C9: the invariant holds after a run on a fresh state (where it
holds vacuously), instantiated at operator 5. -/
theorem updateScheduling_selInv_witness :
    selInv (updateScheduling (fun _ _ => 10) (fun _ => 0) [1, 2] [5]
      zeroSchedState) 5 :=
  updateScheduling_selInv (fun _ _ => 10) (fun _ => 0) [1, 2] [5]
    zeroSchedState (fun _ u hu => absurd hu (by simp [zeroSchedState])) 5

/-- C6: `processScheduledTransactions` emits, for every (user, operator) pair
marked selected in the scheduling matrix, exactly one `ServiceNotified` event
with bandwidth 1000 and duration from the selection record if nonzero else 50,
and exactly one `PaymentProcessed` event with cost `rate * duration * 1000`
where the operator rate defaults to 87 when unset; a pair not marked selected
produces no such event. -/
theorem settlement_events (matrix : Nat → Nat → Bool) (dur : Nat → Nat → Nat)
    (rates : Nat → Nat) (users operators : List Nat)
    (hnd1 : users.Nodup) (hnd2 : operators.Nodup) (u op : Nat) :
    (u ∈ users → op ∈ operators → matrix u op = true →
      (processScheduledTransactions matrix dur rates users operators).count
          (SEvent.notified u op (if dur u op = 0 then 50 else dur u op)
            1000) = 1 ∧
      (processScheduledTransactions matrix dur rates users operators).count
          (SEvent.payment u op ((if rates op = 0 then 87 else rates op) *
            (if dur u op = 0 then 50 else dur u op) * 1000)) = 1) ∧
    (¬(u ∈ users ∧ op ∈ operators ∧ matrix u op = true) →
      (∀ d b, SEvent.notified u op d b ∉
        processScheduledTransactions matrix dur rates users operators) ∧
      (∀ c, SEvent.payment u op c ∉
        processScheduledTransactions matrix dur rates users operators)) := by
  constructor
  · intro humem hopmem hm
    constructor
    · rw [processScheduledTransactions]
      rw [flatMap_count_single _ users u _ hnd1 humem ?_]
      · rw [flatMap_count_single _ operators op _ hnd2 hopmem ?_]
        · rw [settleCell_selected matrix dur rates u op hm]
          simp
        · intro b2 _ hb2
          exact settleCell_count_notified_zero matrix dur rates u b2 u op _ _
            (Or.inr hb2)
      · intro b2 _ hb2
        rw [count_flatMap_eq]
        apply List.sum_eq_zero
        intro x hx
        obtain ⟨op2, _, rfl⟩ := List.mem_map.mp hx
        exact settleCell_count_notified_zero matrix dur rates b2 op2 u op _ _
          (Or.inl hb2)
    · rw [processScheduledTransactions]
      rw [flatMap_count_single _ users u _ hnd1 humem ?_]
      · rw [flatMap_count_single _ operators op _ hnd2 hopmem ?_]
        · rw [settleCell_selected matrix dur rates u op hm]
          simp
        · intro b2 _ hb2
          exact settleCell_count_payment_zero matrix dur rates u b2 u op _
            (Or.inr hb2)
      · intro b2 _ hb2
        rw [count_flatMap_eq]
        apply List.sum_eq_zero
        intro x hx
        obtain ⟨op2, _, rfl⟩ := List.mem_map.mp hx
        exact settleCell_count_payment_zero matrix dur rates b2 op2 u op _
          (Or.inl hb2)
  · intro hnot
    constructor
    · intro d b hmem
      rw [processScheduledTransactions] at hmem
      obtain ⟨u2, hu2, hmem⟩ := List.mem_flatMap.mp hmem
      obtain ⟨op2, hop2, hmem⟩ := List.mem_flatMap.mp hmem
      obtain ⟨hm, hcase⟩ :=
        settleCell_mem_user_op matrix dur rates u2 op2 _ hmem
      rcases hcase with ⟨d2, b2, heq⟩ | ⟨c2, heq⟩
      · rw [SEvent.notified.injEq] at heq
        obtain ⟨rfl, rfl, -, -⟩ := heq
        exact hnot ⟨hu2, hop2, hm⟩
      · exact SEvent.noConfusion heq
    · intro c hmem
      rw [processScheduledTransactions] at hmem
      obtain ⟨u2, hu2, hmem⟩ := List.mem_flatMap.mp hmem
      obtain ⟨op2, hop2, hmem⟩ := List.mem_flatMap.mp hmem
      obtain ⟨hm, hcase⟩ :=
        settleCell_mem_user_op matrix dur rates u2 op2 _ hmem
      rcases hcase with ⟨d2, b2, heq⟩ | ⟨c2, heq⟩
      · exact SEvent.noConfusion heq
      · rw [SEvent.payment.injEq] at heq
        obtain ⟨rfl, rfl, -⟩ := heq
        exact hnot ⟨hu2, hop2, hm⟩

/-- Witness for C6: two users, two operators, only the pair (1, 5) selected,
with unset operator rate and unset duration — the selected pair gets exactly
one notification with default duration 50 and bandwidth 1000 and exactly one
payment of cost 87 * 50 * 1000 = 4350000, while the unselected pair (2, 6)
gets no payment event. -/
theorem settlement_events_witness :
    (processScheduledTransactions (fun u2 op2 => u2 == 1 && op2 == 5)
        (fun _ _ => 0) (fun _ => 0) [1, 2] [5, 6]).count
        (SEvent.notified 1 5 50 1000) = 1 ∧
    (processScheduledTransactions (fun u2 op2 => u2 == 1 && op2 == 5)
        (fun _ _ => 0) (fun _ => 0) [1, 2] [5, 6]).count
        (SEvent.payment 1 5 4350000) = 1 ∧
    SEvent.payment 2 6 300 ∉
      processScheduledTransactions (fun u2 op2 => u2 == 1 && op2 == 5)
        (fun _ _ => 0) (fun _ => 0) [1, 2] [5, 6] :=
  ⟨((settlement_events (fun u2 op2 => u2 == 1 && op2 == 5) (fun _ _ => 0)
      (fun _ => 0) [1, 2] [5, 6] (by decide) (by decide) 1 5).1
      (by decide) (by decide) (by decide)).1,
   ((settlement_events (fun u2 op2 => u2 == 1 && op2 == 5) (fun _ _ => 0)
      (fun _ => 0) [1, 2] [5, 6] (by decide) (by decide) 1 5).1
      (by decide) (by decide) (by decide)).2,
   ((settlement_events (fun u2 op2 => u2 == 1 && op2 == 5) (fun _ _ => 0)
      (fun _ => 0) [1, 2] [5, 6] (by decide) (by decide) 2 6).2
      (by decide)).2 300⟩

/-- C1 counterexample: with a fixed per-round total allocated rate `X = 2500`,
after `K = 4` rounds the remainder-carrying recurrence stores `99985001` while
the exact rational EWMA floored once at the end is `99985000` — the claimed
equivalence fails. -/
theorem thrPair_not_exactEWMA : (thrPair 2500 4).1 ≠ exactEWMA 2500 4 := by
  decide

/-- C1 amended: the remainder-carrying update loses nothing within a single
round (`alpha * value' + remainder'` reconstructs the numerator exactly), and
the stored value agrees with the exact rational EWMA floored once at the end
for every constant rate `X` for `K ≤ 3` rounds; from `K = 4` on the two can
differ (see the counterexample). -/
theorem thrPair_exact_small (X : Nat) :
    (∀ K, K ≤ 3 → (thrPair X K).1 = exactEWMA X K) ∧
    (∀ tot v r, alpha * (throughputUpdate tot v r).1 +
        (throughputUpdate tot v r).2 = (alpha - 1) * v + tot * PRECISION + r) := by
  constructor
  · intro K hK
    interval_cases K
    · rw [exactEWMA_zero]
      rfl
    · rw [thrPair_one, exactEWMA_one]
    · rw [thrPair_two, exactEWMA_two]
    · rw [thrPair_three, exactEWMA_three]
  · intro tot v r
    rw [throughputUpdate, PRECISION]
    exact Nat.div_add_mod _ _

/-- Witness for C1 amended: the three-round agreement and the one-step
conservation law instantiated at concrete values. -/
theorem thrPair_exact_small_witness :
    (thrPair 2500 3).1 = exactEWMA 2500 3 ∧
    alpha * (throughputUpdate 7 123 45).1 + (throughputUpdate 7 123 45).2 =
      (alpha - 1) * 123 + 7 * PRECISION + 45 :=
  ⟨(thrPair_exact_small 2500).1 3 (by norm_num),
   (thrPair_exact_small 2500).2 7 123 45⟩

end BCPFS
